import Mathlib

/-!
Verification of the node-http-proxy core against its specification.

The definitions below are a shallow embedding of the TypeScript sources:
  * `src/http-proxy/common.ts`   — `isSSL`, `setupOutgoing`, `getPort`,
    `hasEncryptedConnection`, `urlJoin`, `rewriteCookieProperty`, `hasPort`,
    `isWebsocket`;
  * `src/http-proxy/index.ts`    — the pass registry (`before`/`after`), the
    `error`-listener contract (`onError`) and `ProxyServer.all` routing;
  * `src/http-proxy/passes/ws-incoming.ts` — `createHttpHeader`, `xHeaders`.

JavaScript strings are modelled as Lean `String`, JS objects holding headers
as insertion-ordered association lists (`List (String × String)`), and record
fields that may be `undefined` as `Option`.  Functions that would raise a
TypeError in JS return `Option`/`Except`.
-/

namespace NodeHttpProxy

/-- JS `Array.prototype.join(sep)`: the elements separated by `sep`. -/
def joinSep (sep : String) : List String → String
  | [] => ""
  | [x] => x
  | x :: xs => x ++ sep ++ joinSep sep xs

/-- JS `String.prototype.split(sep)` for a one-character separator, on
character lists: `"" ↦ [[]]`, and every occurrence of `sep` starts a new
segment. -/
def splitCharList (sep : Char) : List Char → List (List Char)
  | [] => [[]]
  | c :: cs =>
    let r := splitCharList sep cs
    if c = sep then [] :: r
    else
      match r with
      | [] => [[c]]
      | x :: xs => (c :: x) :: xs

/-- JS `s.split(sep)` for a one-character separator. -/
def splitChar (s : String) (sep : Char) : List String :=
  (splitCharList sep s.data).map String.mk

/-- JS `s.toLowerCase()` (ASCII letters; all characters appearing in the
claims are ASCII). -/
def toLowerStr (s : String) : String := String.mk (s.data.map Char.toLower)

/-- JS `s.trim()` restricted to ASCII whitespace. -/
def trimStr (s : String) : String :=
  String.mk (((s.data.dropWhile Char.isWhitespace).reverse.dropWhile Char.isWhitespace).reverse)

/-- JS `s.startsWith(pat)`. -/
def startsWithStr (s pat : String) : Bool := pat.data.isPrefixOf s.data

/-- JS `s.endsWith(pat)`. -/
def endsWithStr (s pat : String) : Bool := pat.data.isSuffixOf s.data

/-- Does `pat` occur as a contiguous sublist of `l`?  (JS `String.prototype.includes` /
`indexOf(...) !== -1` on the character level.) -/
def containsSub (pat : List Char) : List Char → Bool
  | [] => pat.isEmpty
  | c :: cs => pat.isPrefixOf (c :: cs) || containsSub pat cs

/-- JS `s.indexOf(pat) !== -1` for strings. -/
def strContains (s pat : String) : Bool := containsSub pat.data s.data

/-- One step of JS `String.prototype.replace` with a plain-string pattern:
replace the first occurrence of `pat` by `repl`, character-list level. -/
def replaceFirstAux (pat repl : List Char) : List Char → List Char
  | [] => []
  | c :: cs =>
    if pat.isPrefixOf (c :: cs) then repl ++ (c :: cs).drop pat.length
    else c :: replaceFirstAux pat repl cs

/-- JS `s.replace(pat, repl)` with a plain-string pattern (first occurrence only). -/
def replaceFirstStr (s pat repl : String) : String :=
  String.mk (replaceFirstAux pat.data repl.data s.data)

/-- JS `s.replace(/\/+/g, "/")`: collapse every run of slashes to a single slash. -/
def collapseSlashes (s : String) : String :=
  String.mk (s.data.foldl
    (fun (acc : List Char × Bool) c =>
      if c = '/' then (if acc.2 then acc else (acc.1 ++ ['/'], true))
      else (acc.1 ++ [c], false))
    ([], false)).1

/-- The normalisation `urlJoin` applies to the joined path:
`.replace(/\/+/g, "/").replace("http:/", "http://").replace("https:/", "https://")`
(common.ts lines 214-216; the latter two replace only the first occurrence). -/
def normalizeJoin (s : String) : String :=
  replaceFirstStr (replaceFirstStr (collapseSlashes s) "http:/" "http://") "https:/" "https://"

/-- `urlJoin` from common.ts lines 194-226.  The query string of the last
argument is split off (`last.split("?")`), the arguments are joined with `/`
after dropping empty strings, runs of `/` collapse to one with the first
`http:/` / `https:/` restored to `://`, and the query segments are re-joined
with `?`.  (Calling the JS function with no arguments throws; the `[]` case
here is never used by the theorems.) -/
def urlJoin (args : List String) : String :=
  let lastStr := args.getLastD ""
  let lastSegs := splitChar lastStr '?'
  let args2 := args.dropLast ++ [lastSegs.headD ""]
  let joined := joinSep "/" (args2.filter (fun s => s != ""))
  joinSep "?" (normalizeJoin joined :: lastSegs.tail)

/-! ### Header objects

Node lowercases inbound header names; a JS headers object is modelled as an
insertion-ordered association list.  `setHeader` is JS property assignment
(overwrite in place, else append), `getHeader` is property lookup. -/

def getHeader : List (String × String) → String → Option String
  | [], _ => none
  | (k, w) :: rest, key => if k == key then some w else getHeader rest key

def setHeader : List (String × String) → String → String → List (String × String)
  | [], key, v => [(key, v)]
  | (k, w) :: rest, key, v =>
    if k == key then (k, v) :: rest else (k, w) :: setHeader rest key v

/-! ### common.ts -/

/-- `isSSL = /^https|wss/` (common.ts line 9): the protocol either starts
with `https`, or contains `wss` anywhere (the alternation is unanchored on
the right side). -/
def isSSL (protocol : String) : Bool :=
  startsWithStr protocol "https" || strContains protocol "wss"

/-- `upgradeHeader = /(^|,)\s*upgrade\s*($|,)/i` (common.ts line 7): some
comma-separated token of the value is literally `upgrade` up to surrounding
whitespace and case. -/
def upgradeHeaderTest (value : String) : Bool :=
  (splitChar value ',').any (fun t => toLowerStr (trimStr t) == "upgrade")

/-- Modelled from the spec: the well-known-port test of the `requires-port`
npm dependency (not part of this repository), used by `setupOutgoing` —
a port must be written explicitly iff it is not the scheme's default
(80 for `http`/`ws`, 443 for `https`/`wss`); a zero port never requires.
The protocol is taken up to its first `:`. -/
def requiresPort (port : Nat) (protocol : String) : Bool :=
  let proto := (splitChar protocol ':').headD ""
  if port = 0 then false
  else if proto == "http" || proto == "ws" then port != 80
  else if proto == "https" || proto == "wss" then port != 443
  else true

/-- `hasPort` (common.ts lines 277-279): the host string contains a `:`. -/
def hasPort (host : String) : Bool := strContains host ":"

/-- A parsed URL record (Node `url.parse` output / a user-supplied target
object).  `protocol` keeps its trailing colon (`"http:"`); an absent
protocol is modelled as `""`. -/
structure UrlRecord where
  protocol : String := ""
  host : String := ""
  hostname : String := ""
  port : Option Nat := none
  path : Option String := none
  socketPath : Option String := none
  pfx : Option String := none
  key : Option String := none
  passphrase : Option String := none
  cert : Option String := none
  ca : Option String := none
  ciphers : Option String := none
  secureProtocol : Option String := none
deriving DecidableEq

/-- The per-request options record (`proxyOptions` plus the extra fields the
code reads).  Agents are modelled by their presence. -/
structure OptionsRec where
  target : Option UrlRecord := none
  forward : Option UrlRecord := none
  method : Option String := none
  headers : List (String × String) := []
  auth : Option String := none
  ca : Option String := none
  secure : Option Bool := none
  httpAgent : Bool := false
  httpsAgent : Bool := false
  changeOrigin : Bool := false
  prependPath : Bool := true
  ignorePath : Bool := false
  toProxy : Bool := false
  localAddress : Option String := none
  xfwd : Bool := false
deriving DecidableEq

/-- The inbound request: method, raw URL, (lowercased) headers, and the
connection facts the code reads (`remoteAddress`, `encrypted`, `pair`). -/
structure ReqRecord where
  method : String := "GET"
  url : String := "/"
  headers : List (String × String) := []
  remoteAddress : String := ""
  connEncrypted : Bool := false
  connPair : Bool := false
deriving DecidableEq

/-- The outbound request descriptor produced by `setupOutgoing`. -/
structure OutgoingRecord where
  port : Nat := 0
  host : String := ""
  hostname : String := ""
  socketPath : Option String := none
  pfx : Option String := none
  key : Option String := none
  passphrase : Option String := none
  cert : Option String := none
  ca : Option String := none
  ciphers : Option String := none
  secureProtocol : Option String := none
  method : String := ""
  headers : List (String × String) := []
  auth : Option String := none
  rejectUnauthorized : Option Bool := none
  agent : Bool := false
  localAddress : Option String := none
  path : String := ""
deriving DecidableEq

/-- A default `OutgoingRecord`, used only to unwrap `Option` at concrete
witness inputs. -/
def emptyOutgoing : OutgoingRecord := {}

/-- Splits a string at the first occurrence of `pat` (character-list level),
returning the parts before and after it. -/
def splitFirstAux (pat : List Char) : List Char → Option (List Char × List Char)
  | [] => if pat.isEmpty then some ([], []) else none
  | c :: cs =>
    if pat.isPrefixOf (c :: cs) then some ([], (c :: cs).drop pat.length)
    else (splitFirstAux pat cs).map (fun p => (c :: p.1, p.2))

/-- Splits a string at the first occurrence of `pat`. -/
def splitFirstStr (s pat : String) : Option (String × String) :=
  (splitFirstAux pat.data s.data).map (fun p => (String.mk p.1, String.mk p.2))

/-- Modelled from the spec: `url.parse(req.url).path || ""` (Node `url`
module, not part of this repository) — the path-plus-query portion of the
request URL.  An origin-form URL (starting with `/`) is its own path; for an
absolute URL the path starts at the first `/` after the `://` authority
(`""` standing for Node's `null` when there is none); anything else is
returned unchanged. -/
def urlParsePath (u : String) : String :=
  if startsWithStr u "/" then u
  else
    match splitFirstStr u "://" with
    | none => u
    | some (_, rest1) =>
      match splitFirstStr rest1 "/" with
      | none => ""
      | some (_, rest2) => "/" ++ rest2

/-- `setupOutgoing` (common.ts lines 35-131): port resolution, field copy
from the selected target/forward record, header copy and overlay,
`Connection: close` policy, path join, and the `changeOrigin` Host rewrite.
`forward` selects `options.forward` over `options.target` (the
`forward || "target"` parameter).  Returns `none` when the selected record
is absent (the JS code would throw reading its `port`). -/
def setupOutgoing (options : OptionsRec) (req : ReqRecord) (forward : Bool) :
    Option OutgoingRecord :=
  match (if forward then options.forward else options.target) with
  | none => none
  | some t =>
    let port : Nat :=
      match t.port with
      | some p => if p ≠ 0 then p else (if isSSL t.protocol then 443 else 80)
      | none => if isSSL t.protocol then 443 else 80
    let headers0 := options.headers.foldl (fun h kv => setHeader h kv.1 kv.2) req.headers
    let protocol := t.protocol
    let rejectUnauthorized : Option Bool :=
      if isSSL protocol then some (options.secure.getD true) else none
    let agent : Bool := if protocol == "http:" then options.httpAgent else options.httpsAgent
    let headers1 :=
      if agent then headers0
      else
        match getHeader headers0 "connection" with
        | some c => if upgradeHeaderTest c then headers0 else setHeader headers0 "connection" "close"
        | none => setHeader headers0 "connection" "close"
    let targetPath := if options.prependPath then t.path.getD "" else ""
    let outgoingPath0 := if options.toProxy then req.url else urlParsePath req.url
    let outgoingPath := if options.ignorePath then "" else outgoingPath0
    let path := urlJoin [targetPath, outgoingPath]
    let headers2 :=
      if options.changeOrigin then
        setHeader headers1 "host"
          (if requiresPort port protocol && !(hasPort t.host)
           then t.host ++ ":" ++ Nat.repr port
           else t.host)
      else headers1
    some
      { port := port, host := t.host, hostname := t.hostname,
        socketPath := t.socketPath, pfx := t.pfx, key := t.key,
        passphrase := t.passphrase, cert := t.cert,
        ca := match options.ca with | some c => some c | none => t.ca,
        ciphers := t.ciphers, secureProtocol := t.secureProtocol,
        method := options.method.getD req.method,
        headers := headers2, auth := options.auth,
        rejectUnauthorized := rejectUnauthorized, agent := agent,
        localAddress := options.localAddress, path := path }

/-- `hasEncryptedConnection` (common.ts lines 181-184). -/
def hasEncryptedConnection (req : ReqRecord) : Bool :=
  req.connEncrypted || req.connPair

/-- The scan behind `host.match(/:(\d+)/)`: the maximal digit run following
the first colon that is immediately followed by a digit, if any. -/
def matchColonDigitsAux : List Char → Option (List Char)
  | [] => none
  | c :: cs =>
    if c = ':' then
      (if (cs.takeWhile Char.isDigit).isEmpty then matchColonDigitsAux cs
       else some (cs.takeWhile Char.isDigit))
    else matchColonDigitsAux cs

/-- `host.match(/:(\d+)/)`, capture group 1. -/
def matchColonDigits (s : String) : Option String :=
  (matchColonDigitsAux s.data).map String.mk

/-- `getPort` (common.ts lines 166-170): the `:(\d+)` capture of the Host
header if the header is present (and non-empty, JS truthiness) and matches;
otherwise `"443"` for an encrypted connection, else `"80"`. -/
def getPort (req : ReqRecord) : String :=
  let res : Option String :=
    match getHeader req.headers "host" with
    | some h => if h != "" then matchColonDigits h else none
    | none => none
  match res with
  | some d => d
  | none => if hasEncryptedConnection req then "443" else "80"

/-- `isWebsocket` (common.ts lines 281-287): GET method plus a truthy
`upgrade` header whose lowercase form is `websocket`. -/
def isWebsocket (req : ReqRecord) : Bool :=
  req.method == "GET" &&
    (match getHeader req.headers "upgrade" with
     | some u => u != "" && toLowerStr u == "websocket"
     | none => false)

/-! ### Cookie rewriting (common.ts lines 237-268) -/

/-- Case-insensitively strips `pat` from the front of `s`, returning the
actual (original-case) matched characters and the remainder. -/
def stripCaseless (pat : List Char) (s : List Char) : Option (List Char × List Char) :=
  match pat, s with
  | [], rest => some ([], rest)
  | _ :: _, [] => none
  | p :: ps, c :: cs =>
    if p.toLower = c.toLower then
      (stripCaseless ps cs).map (fun m => (c :: m.1, m.2))
    else none

/-- Tries to match the regex `(;\s*<prop>=)([^;]+)` (case-insensitive) at
the start of `s`, returning the matched `;\s*<prop>=` text as it appears in
`s`, the captured value, and the remainder. -/
def tryCookieMatch (prop : List Char) (s : List Char) : Option (List Char × List Char × List Char) :=
  match s with
  | [] => none
  | c :: rest =>
    if c = ';' then
      let ws := rest.takeWhile Char.isWhitespace
      let afterWs := rest.dropWhile Char.isWhitespace
      match stripCaseless prop afterWs with
      | none => none
      | some (m, afterProp) =>
        match afterProp with
        | [] => none
        | e :: afterEq =>
          if e = '=' then
            let v := afterEq.takeWhile (fun ch => ch != ';')
            if v.isEmpty then none
            else some (';' :: (ws ++ m ++ ['=']), v, afterEq.dropWhile (fun ch => ch != ';'))
          else none
    else none

/-- Finds the leftmost match of `(;\s*<prop>=)([^;]+)` in `l`, returning
the text before the match, the matched prefix group, the captured value,
and the text after the match. -/
def findCookieMatch (prop : List Char) : List Char → Option (List Char × List Char × List Char × List Char)
  | [] => none
  | c :: cs =>
    match tryCookieMatch prop (c :: cs) with
    | some (m, v, r) => some ([], m, v, r)
    | none => (findCookieMatch prop cs).map (fun q => (c :: q.1, q.2.1, q.2.2.1, q.2.2.2))

/-- The replacer function of `rewriteCookieProperty`: a truthy new value
replaces the attribute value after the matched prefix, a falsy one (null or
`""`) deletes the whole match. -/
def cookieReplacement (prefixText : List Char) (nv : Option String) : List Char :=
  match nv with
  | some s => if s = "" then [] else prefixText ++ s.data
  | none => []

/-- `rewriteCookieProperty` on a single header string: replace the first
`(;\s*<prop>=)([^;]+)` match according to the config (`*` is the fallback
key; an unmatched value is left unchanged, i.e. the replacer returns the
match itself). -/
def rewriteCookieStr (header : String) (config : List (String × Option String)) (property : String) : String :=
  match findCookieMatch property.data header.data with
  | none => header
  | some (before, m, v, r) =>
    let repl : List Char :=
      match config.lookup (String.mk v) with
      | some nv => cookieReplacement m nv
      | none =>
        match config.lookup "*" with
        | some nv => cookieReplacement m nv
        | none => m ++ v
    String.mk (before ++ repl ++ r)

/-- A `Set-Cookie` header value: a single string or an array of strings. -/
inductive CookieHeader where
  | str (s : String)
  | arr (l : List String)
deriving DecidableEq

/-- `rewriteCookieProperty` (common.ts lines 237-268): arrays map
element-wise through the single-string case. -/
def rewriteCookieProperty (header : CookieHeader) (config : List (String × Option String))
    (property : String) : CookieHeader :=
  match header with
  | .str s => .str (rewriteCookieStr s config property)
  | .arr l => .arr (l.map (fun h => rewriteCookieStr h config property))

/-! ### Pass registry (index.ts lines 264-294) -/

/-- A pipeline pass, identified by its `name`; `id` distinguishes distinct
stages that share a name. -/
structure Pass where
  name : String
  id : Nat := 0
deriving DecidableEq

/-- The `passes.forEach((v, idx) => { if (v.name === passName) i = idx })`
scan: `acc` is the mutable `i`, overwritten on every match, so the scan
yields the index of the last occurrence. -/
def findLastIndexAux (passName : String) : Nat → Option Nat → List Pass → Option Nat
  | _, acc, [] => acc
  | idx, acc, p :: rest =>
    findLastIndexAux passName (idx + 1) (if p.name == passName then some idx else acc) rest

/-- The anchor index used by `before`/`after`. -/
def findPassIndex (passes : List Pass) (passName : String) : Option Nat :=
  findLastIndexAux passName 0 none passes

/-- JS `array.splice(i, 0, x)`: insert `x` at index `i`. -/
def spliceInsert (l : List Pass) (i : Nat) (x : Pass) : List Pass :=
  l.take i ++ x :: l.drop i

/-- Recursive characterisation of the index of the last pass with a given
name, used to reason about the `forEach` scan. -/
def lastNameIdx (passName : String) : List Pass → Option Nat
  | [] => none
  | p :: rest =>
    match lastNameIdx passName rest with
    | some j => some (j + 1)
    | none => if p.name == passName then some 0 else none

/-- `before` on one pass list (index.ts lines 264-278): find the anchor
index, then `splice(i, 0, callback)`. -/
def beforeOp (passes : List Pass) (passName : String) (callback : Pass) :
    Except String (List Pass) :=
  match findPassIndex passes passName with
  | none => .error "No such pass"
  | some i => .ok (spliceInsert passes i callback)

/-- `after` on one pass list (index.ts lines 280-294): find the anchor
index, then `splice(i++, 0, callback)`.  The postfix `i++` yields the old
value of `i`, so the insertion happens at the anchor's own index — i.e.
immediately before the anchor, identically to `before`. -/
def afterOp (passes : List Pass) (passName : String) (callback : Pass) :
    Except String (List Pass) :=
  match findPassIndex passes passName with
  | none => .error "No such pass"
  | some i => .ok (spliceInsert passes i callback)

/-- The two pass lists owned by a `ProxyServer`. -/
structure PassLists where
  webPasses : List Pass
  wsPasses : List Pass
deriving DecidableEq

/-- `ProxyServer.before(type, passName, callback)` including the
`type` validation. -/
def proxyBefore (s : PassLists) (ty passName : String) (callback : Pass) :
    Except String PassLists :=
  if ty ≠ "ws" ∧ ty ≠ "web" then .error "type must be `web` or `ws`"
  else if ty = "ws" then
    (beforeOp s.wsPasses passName callback).map (fun l => { s with wsPasses := l })
  else
    (beforeOp s.webPasses passName callback).map (fun l => { s with webPasses := l })

/-- `ProxyServer.after(type, passName, callback)` including the
`type` validation. -/
def proxyAfter (s : PassLists) (ty passName : String) (callback : Pass) :
    Except String PassLists :=
  if ty ≠ "ws" ∧ ty ≠ "web" then .error "type must be `web` or `ws`"
  else if ty = "ws" then
    (afterOp s.wsPasses passName callback).map (fun l => { s with wsPasses := l })
  else
    (afterOp s.webPasses passName callback).map (fun l => { s with webPasses := l })

/-- The initial WebSocket pass list, `Object.values` of the export of
passes/ws-incoming.ts in insertion order. -/
def initialWsPasses : List Pass :=
  [{ name := "checkMethodAndHeader", id := 0 },
   { name := "xHeaders", id := 1 },
   { name := "stream", id := 2 }]

/-- Modelled from the spec: the web pass list (passes/web-incoming.ts is not
part of this excerpt) — order fixed as `deleteLength`, `timeout`,
`xHeaders`, `stream`. -/
def initialWebPasses : List Pass :=
  [{ name := "deleteLength", id := 10 },
   { name := "timeout", id := 11 },
   { name := "xHeaders", id := 12 },
   { name := "stream", id := 13 }]

/-- The pass lists as initialised by the `ProxyServer` constructor. -/
def initialPassLists : PassLists :=
  { webPasses := initialWebPasses, wsPasses := initialWsPasses }

/-! ### The error-listener contract (index.ts lines 220-227) -/

/-- An `error` listener of the server: the built-in `onError` registered by
the constructor, or an externally attached handler (modelled as a pure
function, i.e. one that does not itself throw). -/
inductive ErrListener where
  | builtin : ErrListener
  | external (handler : String → Unit) : ErrListener

/-- Running one listener while `total` listeners are attached.  The built-in
`onError` rethrows exactly when it is the only listener
(`this.listeners("error").length === 1`). -/
def runErrListener (total : Nat) (err : String) : ErrListener → Except String Unit
  | .builtin => if total = 1 then Except.error err else Except.ok ()
  | .external handler => Except.ok (handler err)

/-- `emit("error", err)`: call each listener in order; a throw propagates
and aborts the remaining listeners. -/
def emitAll (total : Nat) (err : String) : List ErrListener → Except String Unit
  | [] => Except.ok ()
  | l :: rest =>
    match runErrListener total err l with
    | Except.error e => Except.error e
    | Except.ok _ => emitAll total err rest

/-- Emitting `error` on a server with the given listener list. -/
def emitError (listeners : List ErrListener) (err : String) : Except String Unit :=
  emitAll listeners.length err listeners

/-- The `error` listener list of a `ProxyServer`: the constructor registers
the built-in `onError` first (index.ts line 220), external handlers follow. -/
def proxyErrorListeners (external : List (String → Unit)) : List ErrListener :=
  ErrListener.builtin :: external.map ErrListener.external

/-! ### `Server.all` routing (index.ts lines 296-315) -/

/-- Which pipeline a request is dispatched to. -/
inductive Route where
  | web
  | ws
deriving DecidableEq

/-- `Server.all`: `isWebsocket(req)` selects the ws pipeline, anything else
goes to the web pipeline. -/
def serverAll (req : ReqRecord) : Route :=
  if isWebsocket req then Route.ws else Route.web

/-! ### WebSocket passes (passes/ws-incoming.ts) -/

/-- An upstream response header value: plain or array-valued. -/
inductive HeaderValue where
  | single (s : String)
  | multi (l : List String)
deriving DecidableEq

/-- `createHttpHeader(line, headers)` (ws-incoming.ts lines 89-108): a
reduce over the header object pushing `Key: Value` lines (arrays giving one
line per element) onto `[line]`, joined by CRLF and terminated by a blank
line. -/
def createHttpHeader (line : String) (headers : List (String × HeaderValue)) : String :=
  joinSep "\r\n"
    (headers.foldl
      (fun acc kv =>
        match kv.2 with
        | .single v => acc ++ [kv.1 ++ ": " ++ v]
        | .multi vs => acc ++ vs.map (fun v => kv.1 ++ ": " ++ v))
      [line]) ++ "\r\n\r\n"

/-- The `Key: Value` lines of a header object in presentation order, arrays
emitted as repeated lines. -/
def serializeHeaderLines (headers : List (String × HeaderValue)) : List String :=
  (headers.map
    (fun kv =>
      match kv.2 with
      | HeaderValue.single v => [kv.1 ++ ": " ++ v]
      | HeaderValue.multi vs => vs.map (fun v => kv.1 ++ ": " ++ v))).flatten

/-- One `x-forwarded-*` append (ws-incoming.ts lines 63-68): existing value
plus `,` plus the new value, with an empty prefix when the header is absent
or empty (JS truthiness). -/
def appendXfwdHeader (headers : List (String × String)) (key value : String) :
    List (String × String) :=
  let existing :=
    match getHeader headers key with
    | some s => s
    | none => ""
  setHeader headers key (if existing != "" then existing ++ "," ++ value else value)

/-- The ws `xHeaders` pass (ws-incoming.ts lines 54-69): when `options.xfwd`
is set, append remote address, `getPort`, and `wss`/`ws` to the three
`x-forwarded-*` headers, in that order. -/
def wsXHeaders (req : ReqRecord) (options : OptionsRec) : ReqRecord :=
  if options.xfwd = false then req
  else
    { req with
        headers :=
          appendXfwdHeader
            (appendXfwdHeader
              (appendXfwdHeader req.headers "x-forwarded-for" req.remoteAddress)
              "x-forwarded-port" (getPort req))
            "x-forwarded-proto" (if hasEncryptedConnection req then "wss" else "ws") }

/-! ### Claim-side definitions (phrased from the spec's words, for the
refutation of claims C4 and C6) -/

/-- Follows claim C4's words: the scheme (without its colon) matches the
regex `/^https|wss$/`, i.e. starts with `https` or ends with `wss`. -/
def claimSchemeSSL (scheme : String) : Bool :=
  startsWithStr scheme "https" || endsWithStr scheme "wss"

/-- Follows claim C6's words: the `Upgrade` header is present and equals
`websocket` case-insensitively. -/
def upgradeWebsocketHeader (req : ReqRecord) : Bool :=
  match getHeader req.headers "upgrade" with
  | some u => toLowerStr u == "websocket"
  | none => false

/-- Position `i` of `l` holds a colon immediately followed by a digit —
an occurrence of the regex `/:(\d+)/`. -/
def colonDigitAt (l : List Char) (i : Nat) : Prop :=
  l.get? i = some ':' ∧ ∃ c, l.get? (i + 1) = some c ∧ c.isDigit = true

/-! ### Concrete inputs referenced by the theorems -/

/-- A stage to insert in the pass-registry claims. -/
def customPass : Pass := { name := "custom", id := 99 }

/-- C4 counterexample target: a scheme that contains `wss` without ending
in it. -/
def wssaOptions : OptionsRec :=
  { target := some { protocol := "wssa:", host := "h", hostname := "h" } }

/-- C6 counterexample request: a non-GET request with `Upgrade: websocket`. -/
def postUpgradeReq : ReqRecord :=
  { method := "POST", headers := [("upgrade", "websocket")] }

/-- C3 witness options: `changeOrigin` with an http target on a
non-well-known port. -/
def changeOriginOptions : OptionsRec :=
  { target := some { protocol := "http:", host := "example.com",
                     hostname := "example.com", port := some 8080 },
    changeOrigin := true }

/-- C3/C4 witness request. -/
def plainReq : ReqRecord := { method := "GET", url := "/a", headers := [("host", "client")] }

/-- C4 witness options: a wss target without an explicit port. -/
def wssOptions : OptionsRec :=
  { target := some { protocol := "wss:", host := "h", hostname := "h" } }

/-- C9 witness list: two distinct passes named `a` around a pass named `b`. -/
def dupPasses : List Pass := [⟨"a", 0⟩, ⟨"b", 1⟩, ⟨"a", 2⟩]

/-- C10: a request whose Host header is an IPv6 literal with a port. -/
def ipv6HostReq : ReqRecord := { headers := [("host", "[::1]:8080")] }

/-- A request with no headers at all. -/
def emptyReq : ReqRecord := {}

/-- Equality of `Except` values is decidable when it is for both sides. -/
def exceptDecEq {α β : Type} [DecidableEq α] [DecidableEq β] : DecidableEq (Except α β)
  | .error a, .error b =>
    if h : a = b then .isTrue (congrArg Except.error h)
    else .isFalse (fun hc => h (Except.error.inj hc))
  | .error _, .ok _ => .isFalse (fun hc => Except.noConfusion hc)
  | .ok _, .error _ => .isFalse (fun hc => Except.noConfusion hc)
  | .ok a, .ok b =>
    if h : a = b then .isTrue (congrArg Except.ok h)
    else .isFalse (fun hc => h (Except.ok.inj hc))

instance {α β : Type} [DecidableEq α] [DecidableEq β] : DecidableEq (Except α β) :=
  exceptDecEq

/-- C2 counterexample.  The claim states `urlJoin(a, "")` equals `a` for
every string `a`, but the implementation collapses runs of slashes in the
joined result unconditionally: `urlJoin("a//b", "")` is `"a/b"`, not
`"a//b"`. -/
theorem urlJoin_counterexample :
    urlJoin ["a//b", ""] = "a/b" ∧ urlJoin ["a//b", ""] ≠ "a//b" := by decide

/-- C2 (amended).  `urlJoin(a, "")` equals `a` after slash normalisation
(runs of `/` collapse to one and the first `http:/` / `https:/` is restored
to `://`); `urlJoin("", b)` equals the pre-query part of `b` normalised the
same way, re-joined with the remaining `?`-segments of `b`; in general the
query string of the last argument (everything after its first `?`) is
stripped before joining and re-appended afterwards with any additional `?`
segments preserved verbatim. -/
theorem urlJoin_laws :
    (∀ a : String, urlJoin [a, ""] = normalizeJoin a)
  ∧ (∀ b : String, urlJoin ["", b] =
      joinSep "?" (normalizeJoin ((splitChar b '?').headD "") :: (splitChar b '?').tail))
  ∧ (∀ a b : String, urlJoin [a, b] =
      joinSep "?" (normalizeJoin (joinSep "/"
          ([a, (splitChar b '?').headD ""].filter (fun s => s != "")))
        :: (splitChar b '?').tail)) := by
  refine ⟨fun a => ?_, fun b => ?_, fun a b => ?_⟩
  · by_cases ha : a = ""
    · subst ha; rfl
    · have h1 : (a != "") = true := by simpa [bne_iff_ne] using ha
      simp [urlJoin, List.getLastD, List.filter, h1, joinSep, splitChar, splitCharList]
  · by_cases hb : (splitChar b '?').headD "" = ""
    · have h1 : ((splitChar b '?').headD "" != "") = false := by
        simpa [bne_eq_false_iff_eq] using hb
      simp only [List.headD_eq_head?_getD] at h1
      simp [urlJoin, List.getLastD, List.filter, h1, joinSep]
      simp only [List.headD_eq_head?_getD] at hb ⊢
      rw [hb]
    · have h1 : ((splitChar b '?').headD "" != "") = true := by simpa [bne_iff_ne] using hb
      simp only [List.headD_eq_head?_getD] at h1
      simp [urlJoin, List.getLastD, List.filter, h1, joinSep]
  · simp [urlJoin, List.getLastD]

/-! ### Header-lookup lemmas -/

theorem getHeader_setHeader_self (hs : List (String × String)) (k v : String) :
    getHeader (setHeader hs k v) k = some v := by
  induction hs with
  | nil => simp [setHeader, getHeader]
  | cons kv rest ih =>
    obtain ⟨k0, w0⟩ := kv
    by_cases hk : (k0 == k) = true
    · simp [setHeader, getHeader, hk]
    · simp only [setHeader, getHeader, hk]
      simpa [Bool.not_eq_true] using ih

theorem getHeader_setHeader_ne (hs : List (String × String)) (k k' v : String)
    (h : k ≠ k') : getHeader (setHeader hs k v) k' = getHeader hs k' := by
  induction hs with
  | nil => simp [setHeader, getHeader, h]
  | cons kv rest ih =>
    obtain ⟨k0, w0⟩ := kv
    by_cases hk : (k0 == k) = true
    · have hk0 : k0 = k := by simpa [beq_iff_eq] using hk
      subst hk0
      simp [setHeader, getHeader, hk, h]
    · simp [setHeader, getHeader, hk, ih]

/-- C1 (code bug).  The claim (and the method's own name and documentation)
say `after(kind, anchorName, stage)` inserts `stage` immediately after the
anchor, but the implementation runs `passes.splice(i++, 0, callback)` and
the postfix `i++` yields the pre-increment index, so the stage lands at the
anchor's own index — immediately before it: on the ws list,
`after("ws", "xHeaders", custom)` produces
`[checkMethodAndHeader, custom, xHeaders, stream]`, not
`[checkMethodAndHeader, xHeaders, custom, stream]`. -/
theorem after_inserts_before_anchor :
    proxyAfter initialPassLists "ws" "xHeaders" customPass =
      .ok { webPasses := initialWebPasses,
            wsPasses := [{ name := "checkMethodAndHeader", id := 0 }, customPass,
                         { name := "xHeaders", id := 1 }, { name := "stream", id := 2 }] } ∧
    proxyAfter initialPassLists "ws" "xHeaders" customPass ≠
      .ok { webPasses := initialWebPasses,
            wsPasses := [{ name := "checkMethodAndHeader", id := 0 },
                         { name := "xHeaders", id := 1 }, customPass,
                         { name := "stream", id := 2 }] } := by
  constructor
  · rfl
  · decide

/-- C4 counterexample.  The claim defaults the port by the regex
`/^https|wss$/` on the scheme, which rejects the scheme `wssa`; but the
code's `isSSL` is the unanchored `/^https|wss/` against the protocol, and
`"wssa:"` contains `wss`, so a portless `wssa:` target resolves to 443
where the claim's rule yields 80. -/
theorem setupOutgoing_port_counterexample :
    (setupOutgoing wssaOptions plainReq false).map (fun o => o.port) = some 443 ∧
    claimSchemeSSL "wssa" = false := by decide

/-- C4 (amended).  For a resolved target or forward record whose port is not
the (JS-falsy) literal 0, the outbound port is the record's explicit port
when present, and otherwise 443 iff the protocol matches `/^https|wss/`
(starts with `https` or contains `wss`) — in particular 443 for `https:` and
`wss:` and 80 for `http:` and `ws:`. -/
theorem setupOutgoing_port (options : OptionsRec) (req : ReqRecord) (t : UrlRecord)
    (fwd : Bool)
    (h : (if fwd then options.forward else options.target) = some t)
    (h0 : t.port ≠ some 0) :
    (setupOutgoing options req fwd).map (fun o => o.port) =
      some (t.port.getD (if isSSL t.protocol then 443 else 80)) := by
  simp only [setupOutgoing, h]
  cases hp : t.port with
  | none => simp
  | some p =>
    have hpz : p ≠ 0 := fun h' => h0 (by rw [hp, h'])
    simp [hpz]

/-- C4 witness: a portless `wss:` target resolves to port 443. -/
theorem setupOutgoing_port_witness :
    (setupOutgoing wssOptions plainReq false).map (fun o => o.port) = some 443 := by
  have h := setupOutgoing_port wssOptions plainReq
    { protocol := "wss:", host := "h", hostname := "h" } false rfl (by decide)
  exact h.trans (by decide)

/-- C6 counterexample.  A POST request carrying `Upgrade: websocket`
satisfies the claim's routing condition (Upgrade present and equal to
`websocket`), yet `Server.all` sends it to the web pipeline because
`isWebsocket` also requires the GET method. -/
theorem all_routing_counterexample :
    upgradeWebsocketHeader postUpgradeReq = true ∧ serverAll postUpgradeReq ≠ Route.ws := by
  decide

/-- C6 (amended).  `Server.all` dispatches a request to the ws pipeline iff
its method is GET and its `Upgrade` header is present and equals
`websocket` case-insensitively; otherwise it goes to the web pipeline. -/
theorem all_routing (req : ReqRecord) :
    serverAll req = Route.ws ↔
      (req.method = "GET" ∧
        ∃ u, getHeader req.headers "upgrade" = some u ∧ toLowerStr u = "websocket") := by
  cases hu : getHeader req.headers "upgrade" with
  | none => simp [serverAll, isWebsocket, hu]
  | some u =>
    simp only [serverAll, isWebsocket, hu]
    by_cases hb : (req.method == "GET" && (u != "" && toLowerStr u == "websocket")) = true
    · obtain ⟨hm, hne, hlw⟩ := by simpa [Bool.and_eq_true, beq_iff_eq, bne_iff_ne] using hb
      simp [hb, hm, hlw, hne]
    · rw [if_neg (by simpa using hb)]
      simp only [Bool.and_eq_true, beq_iff_eq, bne_iff_ne, not_and, not_exists] at hb ⊢
      constructor
      · intro hc; exact absurd hc (by simp)
      · rintro ⟨hm, u', hu', hlw⟩
        obtain rfl : u = u' := by simpa using hu'
        have hne : u ≠ "" := by
          intro h'; rw [h'] at hlw; exact absurd hlw (by decide)
        exact absurd (hb hm hne) (by simp [hlw])

/-- C6 witness: a GET request with `Upgrade: WebSocket` (mixed case) routes
to the ws pipeline. -/
theorem all_routing_witness :
    serverAll { method := "GET", headers := [("upgrade", "WebSocket")] } = Route.ws :=
  (all_routing _).mpr ⟨rfl, "WebSocket", rfl, by decide⟩

/-- Externally attached `error` handlers never throw, whatever the total
listener count. -/
theorem emitAll_external_ok (es : List (String → Unit)) (total : Nat) (err : String) :
    emitAll total err (es.map ErrListener.external) = Except.ok () := by
  induction es with
  | nil => rfl
  | cons e rest ih => simpa [emitAll, runErrListener] using ih

/-- C7.  Emitting `error` with no listener beyond the built-in `onError`
rethrows the error synchronously; with at least one externally attached
listener, the emit completes without throwing. -/
theorem emitError_contract (external : List (String → Unit)) (err : String) :
    (external = [] → emitError (proxyErrorListeners external) err = Except.error err)
  ∧ (external ≠ [] → emitError (proxyErrorListeners external) err = Except.ok ()) := by
  constructor
  · intro h; subst h; rfl
  · intro h
    cases external with
    | nil => exact absurd rfl h
    | cons e es =>
      simp only [emitError, proxyErrorListeners, emitAll, runErrListener]
      rw [if_neg (by simp)]
      exact emitAll_external_ok (e :: es) _ err

/-- C7 witness: with no external listener attached, emitting rethrows. -/
theorem emitError_contract_witness :
    emitError (proxyErrorListeners []) "ECONNREFUSED" = Except.error "ECONNREFUSED" :=
  (emitError_contract [] "ECONNREFUSED").1 rfl

/-- C3.  With `changeOrigin` set and a resolved target, the outbound `host`
header is the target host with `":" + port` appended iff the port is
non-well-known for the outbound scheme (`requiresPort`) and the target host
does not already contain a `:` (`hasPort`); otherwise it is the target host
alone. -/
theorem setupOutgoing_changeOrigin_host (options : OptionsRec) (req : ReqRecord)
    (t : UrlRecord) (out : OutgoingRecord)
    (ht : options.target = some t) (hco : options.changeOrigin = true)
    (hout : setupOutgoing options req false = some out) :
    getHeader out.headers "host" =
      some (if requiresPort out.port t.protocol && !(hasPort t.host)
            then t.host ++ ":" ++ Nat.repr out.port
            else t.host) := by
  simp only [setupOutgoing, Bool.false_eq_true, if_false, ht, hco, if_true,
    Option.some.injEq] at hout
  subst hout
  simp [getHeader_setHeader_self]

/-- C3 witness: an http target on port 8080 with `changeOrigin` yields
`Host: example.com:8080`. -/
theorem setupOutgoing_changeOrigin_host_witness :
    getHeader ((setupOutgoing changeOriginOptions plainReq false).getD emptyOutgoing).headers
      "host" = some "example.com:8080" := by
  have h := setupOutgoing_changeOrigin_host changeOriginOptions plainReq
    { protocol := "http:", host := "example.com", hostname := "example.com", port := some 8080 }
    ((setupOutgoing changeOriginOptions plainReq false).getD emptyOutgoing)
    rfl rfl (by decide)
  exact h.trans (by decide)

/-- The reduce in `createHttpHeader` appends the serialized header lines to
its initial accumulator. -/
theorem headerLines_foldl (hs : List (String × HeaderValue)) (init : List String) :
    hs.foldl
      (fun acc kv =>
        match kv.2 with
        | .single v => acc ++ [kv.1 ++ ": " ++ v]
        | .multi vs => acc ++ vs.map (fun v => kv.1 ++ ": " ++ v)) init
    = init ++ serializeHeaderLines hs := by
  induction hs generalizing init with
  | nil => simp [serializeHeaderLines]
  | cons kv rest ih =>
    obtain ⟨k, hv⟩ := kv
    cases hv with
    | single v => simp [serializeHeaderLines, ih, List.append_assoc]
    | multi vs => simp [serializeHeaderLines, ih, List.append_assoc]

/-- C5.  The upgrade handshake bytes written to the client socket start with
the literal `HTTP/1.1 101 Switching Protocols\r\n` line and consist of that
line followed by the upstream headers serialized one `Key: Value` pair per
line in presentation order (arrays as repeated lines), terminated by
`\r\n\r\n` (ws-incoming.ts lines 89-108 and 171-176). -/
theorem createHttpHeader_upgrade (hs : List (String × HeaderValue)) :
    (∃ rest, createHttpHeader "HTTP/1.1 101 Switching Protocols" hs =
        "HTTP/1.1 101 Switching Protocols\r\n" ++ rest)
  ∧ createHttpHeader "HTTP/1.1 101 Switching Protocols" hs =
      joinSep "\r\n" ("HTTP/1.1 101 Switching Protocols" :: serializeHeaderLines hs)
        ++ "\r\n\r\n" := by
  have hmain : createHttpHeader "HTTP/1.1 101 Switching Protocols" hs =
      joinSep "\r\n" ("HTTP/1.1 101 Switching Protocols" :: serializeHeaderLines hs)
        ++ "\r\n\r\n" := by
    rw [createHttpHeader, headerLines_foldl]
    rfl
  refine ⟨?_, hmain⟩
  cases hsl : serializeHeaderLines hs with
  | nil =>
    refine ⟨"\r\n", ?_⟩
    rw [hmain, hsl]
    decide
  | cons l ls =>
    refine ⟨joinSep "\r\n" (l :: ls) ++ "\r\n\r\n", ?_⟩
    rw [hmain, hsl]
    show "HTTP/1.1 101 Switching Protocols" ++ "\r\n" ++ joinSep "\r\n" (l :: ls)
        ++ "\r\n\r\n" =
      "HTTP/1.1 101 Switching Protocols\r\n" ++ (joinSep "\r\n" (l :: ls) ++ "\r\n\r\n")
    rw [String.append_assoc ("HTTP/1.1 101 Switching Protocols" ++ "\r\n")
      (joinSep "\r\n" (l :: ls)) "\r\n\r\n"]
    congr 1

/-- The `forEach` scan equals `lastNameIdx` shifted by the running index,
with the accumulator as the no-match fallback. -/
theorem findLastIndexAux_eq (passName : String) (l : List Pass) :
    ∀ (idx : Nat) (acc : Option Nat),
      findLastIndexAux passName idx acc l =
        match lastNameIdx passName l with
        | some j => some (idx + j)
        | none => acc := by
  induction l with
  | nil => intro idx acc; rfl
  | cons p rest ih =>
    intro idx acc
    simp only [findLastIndexAux, lastNameIdx]
    rw [ih]
    cases hr : lastNameIdx passName rest with
    | some j =>
      have : idx + 1 + j = idx + (j + 1) := by omega
      simp [this]
    | none =>
      cases hn : (p.name == passName) <;> simp [hn]

/-- `lastNameIdx` points at a pass with the sought name. -/
theorem lastNameIdx_get (passName : String) (l : List Pass) (i : Nat)
    (h : lastNameIdx passName l = some i) :
    ∃ p, l.get? i = some p ∧ p.name = passName := by
  induction l generalizing i with
  | nil => exact absurd h (by simp [lastNameIdx])
  | cons p rest ih =>
    rw [lastNameIdx] at h
    cases hr : lastNameIdx passName rest with
    | some j =>
      rw [hr] at h
      obtain rfl : j + 1 = i := by simpa using h
      obtain ⟨q, hq, hqn⟩ := ih j hr
      exact ⟨q, by simpa using hq, hqn⟩
    | none =>
      rw [hr] at h
      by_cases hn : (p.name == passName) = true
      · rw [if_pos hn] at h
        obtain rfl : (0 : Nat) = i := by simpa using h
        exact ⟨p, by simp, by simpa [beq_iff_eq] using hn⟩
      · rw [if_neg hn] at h
        exact absurd h (by simp)

/-- When `lastNameIdx` finds nothing, no pass has the sought name. -/
theorem lastNameIdx_none (passName : String) (l : List Pass)
    (h : lastNameIdx passName l = none) :
    ∀ j q, l.get? j = some q → q.name ≠ passName := by
  induction l with
  | nil => intro j q hq; simp at hq
  | cons p rest ih =>
    rw [lastNameIdx] at h
    cases hr : lastNameIdx passName rest with
    | some j => rw [hr] at h; simp at h
    | none =>
      rw [hr] at h
      by_cases hn : (p.name == passName) = true
      · rw [if_pos hn] at h; simp at h
      · intro j q hq
        cases j with
        | zero =>
          obtain rfl : p = q := by simpa using hq
          simpa [beq_iff_eq] using hn
        | succ k => exact ih hr k q (by simpa using hq)

/-- `lastNameIdx` finds the last occurrence. -/
theorem lastNameIdx_last (passName : String) (l : List Pass) (i : Nat)
    (h : lastNameIdx passName l = some i) :
    ∀ j q, l.get? j = some q → q.name = passName → j ≤ i := by
  induction l generalizing i with
  | nil => exact absurd h (by simp [lastNameIdx])
  | cons p rest ih =>
    rw [lastNameIdx] at h
    cases hr : lastNameIdx passName rest with
    | some j' =>
      rw [hr] at h
      obtain rfl : j' + 1 = i := by simpa using h
      intro j q hq hqn
      cases j with
      | zero => omega
      | succ k =>
        have := ih j' hr k q (by simpa using hq) hqn
        omega
    | none =>
      rw [hr] at h
      by_cases hn : (p.name == passName) = true
      · rw [if_pos hn] at h
        obtain rfl : (0 : Nat) = i := by simpa using h
        intro j q hq hqn
        cases j with
        | zero => omega
        | succ k =>
          exact absurd hqn (lastNameIdx_none passName rest hr k q (by simpa using hq))
      · rw [if_neg hn] at h
        exact absurd h (by simp)

/-- C9.  When the anchor index scan of `before`/`after` resolves a name,
it resolves it to the *last* occurrence of that name in the pass list (the
`forEach` scan overwrites earlier matches), and both operations splice at
that index. -/
theorem passIndex_last_occurrence (passes : List Pass) (passName : String)
    (callback : Pass) (i : Nat) (h : findPassIndex passes passName = some i) :
    (∃ p, passes.get? i = some p ∧ p.name = passName)
  ∧ (∀ j q, passes.get? j = some q → q.name = passName → j ≤ i)
  ∧ beforeOp passes passName callback = .ok (passes.take i ++ callback :: passes.drop i)
  ∧ afterOp passes passName callback = .ok (passes.take i ++ callback :: passes.drop i) := by
  have he : lastNameIdx passName passes = some i := by
    rw [findPassIndex, findLastIndexAux_eq] at h
    cases hl : lastNameIdx passName passes with
    | none => rw [hl] at h; exact absurd h (by simp)
    | some j => rw [hl] at h; simpa using h
  refine ⟨lastNameIdx_get passName passes i he, lastNameIdx_last passName passes i he, ?_, ?_⟩
  · simp [beforeOp, h, spliceInsert]
  · simp [afterOp, h, spliceInsert]

/-- C9 witness: with two passes named `a`, `after` resolves the anchor `a`
to the occurrence at index 2, not index 0. -/
theorem passIndex_last_occurrence_witness :
    afterOp dupPasses "a" customPass = .ok [⟨"a", 0⟩, ⟨"b", 1⟩, customPass, ⟨"a", 2⟩] := by
  have h := passIndex_last_occurrence dupPasses "a" customPass 2 rfl
  exact h.2.2.2.trans (by rfl)

/-- A successful case-insensitive strip decomposes its input. -/
theorem stripCaseless_sound (pat : List Char) :
    ∀ s m r, stripCaseless pat s = some (m, r) → s = m ++ r := by
  induction pat with
  | nil =>
    intro s m r h
    simp only [stripCaseless, Option.some.injEq, Prod.mk.injEq] at h
    obtain ⟨rfl, rfl⟩ := h
    rfl
  | cons p ps ih =>
    intro s m r h
    cases s with
    | nil => exact Option.noConfusion h
    | cons c cs =>
      simp only [stripCaseless] at h
      by_cases hc : p.toLower = c.toLower
      · rw [if_pos hc] at h
        cases hs : stripCaseless ps cs with
        | none => rw [hs] at h; exact Option.noConfusion h
        | some pr =>
          obtain ⟨m0, r0⟩ := pr
          rw [hs] at h
          simp only [Option.map_some', Option.some.injEq, Prod.mk.injEq] at h
          obtain ⟨rfl, rfl⟩ := h
          simpa using congrArg (c :: ·) (ih cs m0 r0 hs)
      · rw [if_neg hc] at h; exact Option.noConfusion h

/-- A successful `tryCookieMatch` decomposes its input into the matched
prefix, the captured value, and the rest. -/
theorem tryCookieMatch_sound (prop s m v r : List Char)
    (h : tryCookieMatch prop s = some (m, v, r)) : s = m ++ v ++ r := by
  cases s with
  | nil => exact Option.noConfusion h
  | cons c rest =>
    simp only [tryCookieMatch] at h
    split at h
    next hc =>
      split at h
      next => exact Option.noConfusion h
      next m0 afterProp hsp =>
        split at h
        next => exact Option.noConfusion h
        next e afterEq =>
          split at h
          next he =>
            split at h
            next => exact Option.noConfusion h
            next hv =>
              obtain ⟨rfl, rfl, rfl⟩ : _ ∧ _ ∧ _ := by
                simpa [Prod.mk.injEq] using h
              subst hc he
              have h1 := List.takeWhile_append_dropWhile (p := Char.isWhitespace) (l := rest)
              have h2 := stripCaseless_sound prop _ m0 ('=' :: afterEq) hsp
              have h3 := List.takeWhile_append_dropWhile (p := fun ch => ch != ';') (l := afterEq)
              simp only [List.cons_append, List.cons.injEq, true_and]
              rw [List.append_assoc, h3]
              rw [show (List.takeWhile Char.isWhitespace rest ++ (m0 ++ ['='])) ++ afterEq
                  = List.takeWhile Char.isWhitespace rest ++ (m0 ++ ('=' :: afterEq)) from by
                simp [List.append_assoc]]
              rw [← h2]
              exact h1.symm
          next he => exact Option.noConfusion h
    next hc => exact Option.noConfusion h

/-- A successful `findCookieMatch` decomposes its input. -/
theorem findCookieMatch_sound (prop : List Char) :
    ∀ l b m v r, findCookieMatch prop l = some (b, m, v, r) → l = b ++ m ++ v ++ r := by
  intro l
  induction l with
  | nil => intro b m v r h; exact Option.noConfusion h
  | cons c cs ih =>
    intro b m v r h
    simp only [findCookieMatch] at h
    cases ht : tryCookieMatch prop (c :: cs) with
    | some tr =>
      obtain ⟨m0, v0, r0⟩ := tr
      rw [ht] at h
      simp only [Option.some.injEq, Prod.mk.injEq] at h
      obtain ⟨rfl, rfl, rfl, rfl⟩ := h
      simpa using tryCookieMatch_sound prop (c :: cs) m0 v0 r0 ht
    | none =>
      rw [ht] at h
      cases hf : findCookieMatch prop cs with
      | none => rw [hf] at h; exact Option.noConfusion h
      | some q =>
        obtain ⟨b0, m0, v0, r0⟩ := q
        rw [hf] at h
        simp only [Option.map_some', Option.some.injEq, Prod.mk.injEq] at h
        obtain ⟨rfl, rfl, rfl, rfl⟩ := h
        simpa using congrArg (c :: ·) (ih b0 m0 v0 r0 hf)

/-- C8.  `rewriteCookieProperty` maps arrays element-wise; on a single
value, the first `(;\s*<prop>=)([^;]+)` match has its captured value looked
up in the config: a key hit with a truthy replacement substitutes the
value, a null/empty replacement deletes the whole attribute, the `*` key is
the fallback with the same two behaviours, and with neither key the header
is returned unchanged (no match at all also leaves it unchanged). -/
theorem rewriteCookieProperty_spec (config : List (String × Option String))
    (property header : String) :
    (∀ l, rewriteCookieProperty (.arr l) config property =
        .arr (l.map (fun h => rewriteCookieStr h config property)))
  ∧ (findCookieMatch property.data header.data = none →
        rewriteCookieStr header config property = header)
  ∧ (∀ b m v r, findCookieMatch property.data header.data = some (b, m, v, r) →
       header.data = b ++ m ++ v ++ r
     ∧ (∀ s, config.lookup (String.mk v) = some (some s) → s ≠ "" →
          rewriteCookieStr header config property = String.mk (b ++ m ++ s.data ++ r))
     ∧ ((config.lookup (String.mk v) = some none ∨
          config.lookup (String.mk v) = some (some "")) →
          rewriteCookieStr header config property = String.mk (b ++ r))
     ∧ (config.lookup (String.mk v) = none →
          (∀ s, config.lookup "*" = some (some s) → s ≠ "" →
             rewriteCookieStr header config property = String.mk (b ++ m ++ s.data ++ r))
        ∧ ((config.lookup "*" = some none ∨ config.lookup "*" = some (some "")) →
             rewriteCookieStr header config property = String.mk (b ++ r))
        ∧ (config.lookup "*" = none →
             rewriteCookieStr header config property = header))) := by
  refine ⟨fun l => rfl, fun hn => by simp [rewriteCookieStr, hn], fun b m v r hf => ?_⟩
  have hsound : header.data = b ++ m ++ v ++ r := findCookieMatch_sound _ _ b m v r hf
  refine ⟨hsound, ?_, ?_, ?_⟩
  · intro s hl hs
    simp [rewriteCookieStr, hf, hl, cookieReplacement, hs, List.append_assoc]
  · rintro (hl | hl) <;> simp [rewriteCookieStr, hf, hl, cookieReplacement]
  · intro hl
    refine ⟨?_, ?_, ?_⟩
    · intro s hstar hs
      simp [rewriteCookieStr, hf, hl, hstar, cookieReplacement, hs, List.append_assoc]
    · rintro (h' | h') <;> simp [rewriteCookieStr, hf, hl, h', cookieReplacement]
    · intro hstar
      simp only [rewriteCookieStr, hf, hl, hstar]
      calc String.mk (b ++ (m ++ v) ++ r) = String.mk header.data := by
            rw [hsound]; simp [List.append_assoc]
        _ = header := rfl

/-- C8 witness: rewriting `Domain=a.com` to `b.com` through the config
mapping a.com to b.com. -/
theorem rewriteCookieProperty_spec_witness :
    rewriteCookieStr "sid=1; Domain=a.com; Path=/" [("a.com", some "b.com")] "domain" =
      "sid=1; Domain=b.com; Path=/" := by
  have h := ((rewriteCookieProperty_spec [("a.com", some "b.com")] "domain"
      "sid=1; Domain=a.com; Path=/").2.2 "sid=1".data "; Domain=".data "a.com".data
      "; Path=/".data (by decide)).2.1 "b.com" (by decide) (by decide)
  exact h.trans (by decide)

/-- Shifting a colon-digit occurrence across a cons cell. -/
theorem colonDigitAt_cons_succ (c : Char) (cs : List Char) (j : Nat) :
    colonDigitAt (c :: cs) (j + 1) ↔ colonDigitAt cs j := by
  simp [colonDigitAt, List.get?_cons_succ]

/-- An empty `takeWhile` means the head (if any) fails the predicate. -/
theorem takeWhileEmpty_head (p : Char → Bool) (cs : List Char) (h : cs.takeWhile p = [])
    (d : Char) (hd : cs.get? 0 = some d) : p d = false := by
  cases cs with
  | nil => exact Option.noConfusion hd
  | cons c cs' =>
    obtain rfl : c = d := by simpa using hd
    by_cases hp : p c = true
    · rw [List.takeWhile_cons, if_pos hp] at h
      exact List.noConfusion h
    · simpa using hp

/-- A non-empty `takeWhile` exposes a head satisfying the predicate. -/
theorem takeWhileNonempty_head (p : Char → Bool) (cs : List Char)
    (h : ¬ cs.takeWhile p = []) : ∃ d cs', cs = d :: cs' ∧ p d = true := by
  cases cs with
  | nil => exact absurd rfl h
  | cons c cs' =>
    by_cases hp : p c = true
    · exact ⟨c, cs', rfl, hp⟩
    · rw [List.takeWhile_cons, if_neg hp] at h
      exact absurd rfl h

/-- A successful `/:(\d+)/` scan returns the digits after the first
colon-followed-by-digit occurrence. -/
theorem matchColonDigitsAux_some (l : List Char) :
    ∀ ds, matchColonDigitsAux l = some ds →
      ∃ i, colonDigitAt l i ∧ (∀ j, j < i → ¬ colonDigitAt l j) ∧
        ds = (l.drop (i + 1)).takeWhile Char.isDigit := by
  induction l with
  | nil => intro ds h; exact Option.noConfusion h
  | cons c cs ih =>
    intro ds h
    by_cases hc : c = ':'
    · subst hc
      by_cases hemp : (cs.takeWhile Char.isDigit).isEmpty = true
      · have hrec : matchColonDigitsAux cs = some ds := by
          simpa [matchColonDigitsAux, hemp] using h
        obtain ⟨i, hcd, hmin, hds⟩ := ih ds hrec
        refine ⟨i + 1, (colonDigitAt_cons_succ ':' cs i).mpr hcd, ?_, ?_⟩
        · intro j hj
          cases j with
          | zero =>
            rintro ⟨-, d, hd0, hdig⟩
            have hd0' : cs.get? 0 = some d := by simpa using hd0
            have hfalse := takeWhileEmpty_head Char.isDigit cs
              (by simpa [List.isEmpty_iff] using hemp) d hd0'
            rw [hfalse] at hdig
            exact Bool.noConfusion hdig
          | succ k =>
            intro hcdk
            exact hmin k (by omega) ((colonDigitAt_cons_succ ':' cs k).mp hcdk)
        · simpa using hds
      · have hds' : some (cs.takeWhile Char.isDigit) = some ds := by
          simpa [matchColonDigitsAux, hemp] using h
        obtain rfl : cs.takeWhile Char.isDigit = ds := by simpa using hds'
        obtain ⟨d, cs', rfl, hdig⟩ := takeWhileNonempty_head Char.isDigit cs
          (by simpa [List.isEmpty_iff] using hemp)
        refine ⟨0, ⟨by simp, d, by simp, hdig⟩, fun j hj => absurd hj (by omega), by simp⟩
    · have hrec : matchColonDigitsAux cs = some ds := by
        simpa [matchColonDigitsAux, hc] using h
      obtain ⟨i, hcd, hmin, hds⟩ := ih ds hrec
      refine ⟨i + 1, (colonDigitAt_cons_succ c cs i).mpr hcd, ?_, by simpa using hds⟩
      intro j hj
      cases j with
      | zero =>
        rintro ⟨h0, -⟩
        exact hc (by simpa using h0)
      | succ k =>
        intro hcdk
        exact hmin k (by omega) ((colonDigitAt_cons_succ c cs k).mp hcdk)

/-- A failed `/:(\d+)/` scan means no colon is immediately followed by a
digit anywhere. -/
theorem matchColonDigitsAux_none (l : List Char) :
    matchColonDigitsAux l = none → ∀ i, ¬ colonDigitAt l i := by
  induction l with
  | nil =>
    rintro - i ⟨h0, -⟩
    exact Option.noConfusion h0
  | cons c cs ih =>
    intro h i
    by_cases hc : c = ':'
    · subst hc
      by_cases hemp : (cs.takeWhile Char.isDigit).isEmpty = true
      · have hrec : matchColonDigitsAux cs = none := by
          simpa [matchColonDigitsAux, hemp] using h
        cases i with
        | zero =>
          rintro ⟨-, d, hd0, hdig⟩
          have hd0' : cs.get? 0 = some d := by simpa using hd0
          have hfalse := takeWhileEmpty_head Char.isDigit cs
            (by simpa [List.isEmpty_iff] using hemp) d hd0'
          rw [hfalse] at hdig
          exact Bool.noConfusion hdig
        | succ k =>
          intro hcdk
          exact ih hrec k ((colonDigitAt_cons_succ ':' cs k).mp hcdk)
      · exact absurd h (by simp [matchColonDigitsAux, hemp])
    · have hrec : matchColonDigitsAux cs = none := by
        simpa [matchColonDigitsAux, hc] using h
      cases i with
      | zero =>
        rintro ⟨h0, -⟩
        exact hc (by simpa using h0)
      | succ k =>
        intro hcdk
        exact ih hrec k ((colonDigitAt_cons_succ c cs k).mp hcdk)


/-- C10.  `getPort` returns the digits after the *first* colon that is
immediately followed by digits anywhere in the Host header (hence `"1"`
for the IPv6 literal `[::1]:8080`); with no Host header, an empty one, or
no such occurrence it falls back to `"443"` when the connection is
encrypted and `"80"` otherwise; and the ws `xHeaders` pass appends exactly
this value to `x-forwarded-port`, comma-separated after any existing
value. -/
theorem getPort_spec :
    (∀ (req : ReqRecord) (h : String), getHeader req.headers "host" = some h → h ≠ "" →
       ((∃ i ds, colonDigitAt h.data i ∧ (∀ j, j < i → ¬ colonDigitAt h.data j)
            ∧ ds = (h.data.drop (i + 1)).takeWhile Char.isDigit
            ∧ getPort req = String.mk ds)
        ∨ ((∀ i, ¬ colonDigitAt h.data i)
            ∧ getPort req = (if hasEncryptedConnection req then "443" else "80"))))
  ∧ (∀ req : ReqRecord,
       (getHeader req.headers "host" = none ∨ getHeader req.headers "host" = some "") →
       getPort req = (if hasEncryptedConnection req then "443" else "80"))
  ∧ getPort ipv6HostReq = "1"
  ∧ (∀ (req : ReqRecord) (options : OptionsRec), options.xfwd = true →
       getHeader (wsXHeaders req options).headers "x-forwarded-port" =
         some (match getHeader req.headers "x-forwarded-port" with
               | some s => if s ≠ "" then s ++ "," ++ getPort req else getPort req
               | none => getPort req)) := by
  refine ⟨?_, ?_, by decide, ?_⟩
  · intro req h hh hne
    have hb : (h != "") = true := by simpa [bne_iff_ne] using hne
    cases hm : matchColonDigitsAux h.data with
    | none =>
      right
      refine ⟨matchColonDigitsAux_none h.data hm, ?_⟩
      simp [getPort, hh, hb, matchColonDigits, hm]
    | some ds =>
      left
      obtain ⟨i, hcd, hmin, hds⟩ := matchColonDigitsAux_some h.data ds hm
      exact ⟨i, ds, hcd, hmin, hds, by simp [getPort, hh, hb, matchColonDigits, hm]⟩
  · intro req hd
    rcases hd with hd | hd <;> simp [getPort, hd]
  · intro req options hx
    rw [wsXHeaders, if_neg (by simp [hx])]
    simp only [appendXfwdHeader]
    rw [getHeader_setHeader_ne _ "x-forwarded-proto" "x-forwarded-port" _ (by decide)]
    rw [getHeader_setHeader_self]
    rw [getHeader_setHeader_ne _ "x-forwarded-for" "x-forwarded-port" _ (by decide)]
    cases hp : getHeader req.headers "x-forwarded-port" with
    | none => simp
    | some s =>
      by_cases hs : s = ""
      · subst hs; simp
      · have hb : (s != "") = true := by simpa [bne_iff_ne] using hs
        simp [hb, hs]

/-- C10 witness: a request without a Host header falls back to the
encryption-based default. -/
theorem getPort_spec_witness :
    getPort emptyReq = (if hasEncryptedConnection emptyReq then "443" else "80") :=
  getPort_spec.2.1 emptyReq (Or.inl rfl)

end NodeHttpProxy
